import Mathlib

/-!
Shallow embedding of the realtime chain-synchronization core:
the filter engine (`filter.ts`), the reorg-safe pipeline
(`realtime/index.ts`) and the event builder (`events.ts`), together with
proofs of the specification's claims about them.

Hex-encoded quantities (`block.number`, `timestamp`, indices, `value`) are
modelled as `Nat` since the source always compares them through
`hexToNumber` / `hexToBigInt`.  Hashes, addresses and topics stay `String`.
-/

namespace Ponder

/-- Modelled from the spec: the lowercase-normalization utility
`@/utils/lowercase.js` (not under `src/`); all addresses and hex strings
are compared after lowercase normalization (character-wise ASCII
lowercasing). -/
def toLowerCase (s : String) : String := String.mk (s.data.map Char.toLower)

/-- Modelled from the spec: the child-address extractor of a `Factory`
(`@/sync/source.js`, not under `src/`): the child address is decoded from
the emitted log at a topic index or at an offset within the data. -/
inductive ChildLoc where
  | topic (i : Nat)
  | offset (n : Nat)
deriving DecidableEq, Repr

/-- A `Factory`: address set, event selector (topic0) and a child-address
extractor.  The source normalizes a single address to a one-element array
(`filter.ts` lines 50-52); the model stores the normalized list. -/
structure Factory where
  address : List String
  eventSelector : String
  childLoc : ChildLoc
deriving DecidableEq, Repr

/-- Modelled from the spec: `getChildAddress` (`@/sync/source.js`, not under
`src/`) decodes the child address from the log per the factory's extractor:
a topic index selects that topic, an offset selects 40 hex chars of data;
either way the 20-byte address is the last 40 hex characters of the slice. -/
def getChildAddressFrom (log_topics : List String) (log_data : String) (f : Factory) : String :=
  match f.childLoc with
  | .topic i =>
      let t := (log_topics.get? i).getD ""
      "0x" ++ String.mk (t.toList.drop (t.length - 40))
  | .offset n =>
      "0x" ++ String.mk ((log_data.toList.drop (2 + n)).take 40)

/-- A filter value constraint: `null`/`undefined` (absent), a single value,
or an array of values. -/
inductive ValueConstraint where
  | absent
  | single (v : String)
  | many (vs : List String)
deriving DecidableEq, Repr

/-- An address constraint: absent, one, many, or a factory reference. -/
inductive AddressConstraint where
  | absent
  | single (a : String)
  | many (as : List String)
  | factory (f : Factory)
deriving DecidableEq, Repr

/-- Modelled from the spec: `isAddressFactory` (`@/sync/source.js`, not
under `src/`) recognises a factory reference among address constraints. -/
def isAddressFactory : AddressConstraint → Bool
  | .factory _ => true
  | _ => false

/-- The non-factory address constraint viewed as a plain value constraint
(the `filter.address as Address | Address[] | undefined` cast); the factory
case is never consulted through this view. -/
def AddressConstraint.toValue : AddressConstraint → ValueConstraint
  | .absent => .absent
  | .single a => .single a
  | .many as => .many as
  | .factory _ => .absent

/-- `isValueMatched` (`filter.ts` lines 19-41): absent constraint matches
all; a missing candidate matches nothing; an array constraint matches when
some element equals the lowercased candidate; a single constraint matches
when it equals the lowercased candidate. -/
def isValueMatched (filterValue : ValueConstraint) (eventValue : Option String) : Bool :=
  match filterValue, eventValue with
  | .absent, _ => true
  | _, none => false
  | .many vs, some e => vs.any (fun v => v = toLowerCase e)
  | .single v, some e => v = toLowerCase e

structure SyncLog where
  address : String
  topics : List String
  data : String
  blockHash : String
  blockNumber : Nat
  transactionHash : String
  transactionIndex : Nat
  logIndex : Nat
deriving DecidableEq, Repr

structure SyncTransaction where
  hash : String
  from_ : String
  to_ : Option String
  input : String
  transactionIndex : Nat
deriving DecidableEq, Repr

/-- The inner `trace` object of a `SyncTrace`. -/
structure TraceInner where
  type : String
  from_ : String
  to_ : Option String
  input : String
  value : Option Nat
deriving DecidableEq, Repr

structure SyncTrace where
  trace : TraceInner
  transactionHash : String
  position : Nat
deriving DecidableEq, Repr

structure SyncBlock where
  number : Nat
  hash : String
  parentHash : String
  timestamp : Nat
  logsBloom : String
  transactions : List SyncTransaction
deriving DecidableEq, Repr

/-- `{ number, hash, parentHash, timestamp }`, the record retained per
unfinalized block. -/
structure LightBlock where
  number : Nat
  hash : String
  parentHash : String
  timestamp : Nat
deriving DecidableEq, Repr

/-- Modelled from the spec: `syncBlockToLightBlock` (`@/sync/index.js`, not
under `src/`) projects the four `LightBlock` fields. -/
def syncBlockToLightBlock (b : SyncBlock) : LightBlock :=
  { number := b.number, hash := b.hash, parentHash := b.parentHash, timestamp := b.timestamp }

/-- The `[fromBlock, toBlock]` range check shared by every filter
(`hexToNumber(block.number) < (filter.fromBlock ?? 0) ||
hexToNumber(block.number) > (filter.toBlock ?? Infinity)` yields `false`). -/
def inRangeB (fromBlock toBlock : Option Nat) (n : Nat) : Bool :=
  decide (fromBlock.getD 0 ≤ n) &&
    (match toBlock with
     | none => true
     | some t => decide (n ≤ t))

structure LogFilter where
  chainId : Nat
  fromBlock : Option Nat
  toBlock : Option Nat
  address : AddressConstraint
  topic0 : ValueConstraint
  topic1 : ValueConstraint
  topic2 : ValueConstraint
  topic3 : ValueConstraint
deriving DecidableEq, Repr

structure TransactionFilter where
  chainId : Nat
  fromBlock : Option Nat
  toBlock : Option Nat
  fromAddress : AddressConstraint
  toAddress : AddressConstraint
  includeReverted : Bool
deriving DecidableEq, Repr

structure TraceFilter where
  chainId : Nat
  fromBlock : Option Nat
  toBlock : Option Nat
  fromAddress : AddressConstraint
  toAddress : AddressConstraint
  callType : String
  functionSelector : ValueConstraint
  includeReverted : Bool
deriving DecidableEq, Repr

structure TransferFilter where
  chainId : Nat
  fromBlock : Option Nat
  toBlock : Option Nat
  fromAddress : AddressConstraint
  toAddress : AddressConstraint
  includeReverted : Bool
deriving DecidableEq, Repr

structure BlockFilter where
  chainId : Nat
  fromBlock : Option Nat
  toBlock : Option Nat
  interval : Nat
  offset : Nat
deriving DecidableEq, Repr

/-- The tagged union of the five filter variants. -/
inductive Filter where
  | log (f : LogFilter)
  | trace (f : TraceFilter)
  | transaction (f : TransactionFilter)
  | transfer (f : TransferFilter)
  | block (f : BlockFilter)
deriving DecidableEq, Repr

/-- `isLogFactoryMatched` (`filter.ts` lines 46-61). -/
def isLogFactoryMatched (f : Factory) (log : SyncLog) : Bool :=
  if f.address.all (fun address => address ≠ toLowerCase log.address) then false
  else match log.topics with
    | [] => false
    | t0 :: _ => if f.eventSelector ≠ toLowerCase t0 then false else true

/-- `isLogFilterMatched` (`filter.ts` lines 66-98). -/
def isLogFilterMatched (f : LogFilter) (block : SyncBlock) (log : SyncLog) : Bool :=
  if !inRangeB f.fromBlock f.toBlock block.number then false
  else if isValueMatched f.topic0 (log.topics.get? 0) = false then false
  else if isValueMatched f.topic1 (log.topics.get? 1) = false then false
  else if isValueMatched f.topic2 (log.topics.get? 2) = false then false
  else if isValueMatched f.topic3 (log.topics.get? 3) = false then false
  else if isAddressFactory f.address = false &&
          isValueMatched f.address.toValue (some log.address) = false then false
  else true

/-- `isTransactionFilterMatched` (`filter.ts` lines 103-143).  Note the
`transaction.to_ &&` truthiness guard: the `toAddress` check only runs when
the transaction has a `to` field. -/
def isTransactionFilterMatched (f : TransactionFilter) (blockNumber : Nat)
    (transaction : SyncTransaction) : Bool :=
  if !inRangeB f.fromBlock f.toBlock blockNumber then false
  else if isAddressFactory f.fromAddress = false &&
          isValueMatched f.fromAddress.toValue (some transaction.from_) = false then false
  else if isAddressFactory f.toAddress = false &&
          transaction.to_.isSome &&
          isValueMatched f.toAddress.toValue transaction.to_ = false then false
  else true

/-- `isTraceFilterMatched` (`filter.ts` lines 148-197). -/
def isTraceFilterMatched (f : TraceFilter) (blockNumber : Nat) (trace : TraceInner) : Bool :=
  if !inRangeB f.fromBlock f.toBlock blockNumber then false
  else if isAddressFactory f.fromAddress = false &&
          isValueMatched f.fromAddress.toValue (some trace.from_) = false then false
  else if isAddressFactory f.toAddress = false &&
          isValueMatched f.toAddress.toValue trace.to_ = false then false
  else if f.callType ≠ trace.type then false
  else if isValueMatched f.functionSelector (some (trace.input.take 10)) = false then false
  else true

/-- `isTransferFilterMatched` (`filter.ts` lines 202-244). -/
def isTransferFilterMatched (f : TransferFilter) (blockNumber : Nat) (trace : TraceInner) : Bool :=
  if !inRangeB f.fromBlock f.toBlock blockNumber then false
  else if trace.value = none || trace.value = some 0 then false
  else if isAddressFactory f.fromAddress = false &&
          isValueMatched f.fromAddress.toValue (some trace.from_) = false then false
  else if isAddressFactory f.toAddress = false &&
          isValueMatched f.toAddress.toValue trace.to_ = false then false
  else true

/-- `isBlockFilterMatched` (`filter.ts` lines 249-265): in range and
`(number - offset) % interval === 0` (tested over `Int`; testing the
remainder against zero is independent of the sign convention). -/
def isBlockFilterMatched (f : BlockFilter) (block : SyncBlock) : Bool :=
  if !inRangeB f.fromBlock f.toBlock block.number then false
  else decide ((((block.number : Int) - (f.offset : Int)) % (f.interval : Int)) = 0)

/-- `getChildAddress({ log, factory })` applied to a `SyncLog`. -/
def getChildAddress (log : SyncLog) (f : Factory) : String :=
  getChildAddressFrom log.topics log.data f

/-! ## Realtime reorg-safe pipeline (`realtime/index.ts`) -/

/-- A transaction receipt; only the hash is consulted by the pipeline. -/
structure SyncReceipt where
  transactionHash : String
deriving DecidableEq, Repr

/-- The static configuration collected once from `args.sources`
(`realtime/index.ts` lines 122-175). -/
structure RtConfig where
  finalityBlockCount : Nat
  factories : List Factory
  logFilters : List LogFilter
  traceFilters : List TraceFilter
  transactionFilters : List TransactionFilter
  transferFilters : List TransferFilter
  blockFilters : List BlockFilter

/-- The mutable state owned by the pipeline consumer
(`realtime/index.ts` lines 103-119).  The `Map`s are modelled as total
functions; an absent key reads as the empty list. -/
structure RtState where
  finalizedBlock : LightBlock
  unfinalizedBlocks : List LightBlock
  finalizedChildAddresses : Factory → List String
  unfinalizedChildAddresses : Factory → List String
  factoryLogsPerBlock : String → List SyncLog
  consecutiveErrors : Nat

/-- The item handed to `handleBlock` (a fetched `BlockWithEventData`
without `filters`). -/
structure BlockInput where
  block : SyncBlock
  logs : List SyncLog
  factoryLogs : List SyncLog
  traces : List SyncTrace
  transactions : List SyncTransaction
  transactionReceipts : List SyncReceipt

/-- The payload of an emitted `block` event. -/
structure BlockPayload where
  filters : List Filter
  block : SyncBlock
  logs : List SyncLog
  factoryLogs : List SyncLog
  traces : List SyncTrace
  transactions : List SyncTransaction
  transactionReceipts : List SyncReceipt

/-- A `RealtimeSyncEvent` passed to `args.onEvent`. -/
inductive REvent where
  | blockEv (p : BlockPayload)
  | finalizeEv (block : LightBlock)
  | reorgEv (block : LightBlock) (reorgedBlocks : List LightBlock)

def ERROR_TIMEOUT : List Nat := [1, 2, 5, 10, 30, 60, 60, 60, 60, 60, 60, 60, 60, 60]

def MAX_QUEUED_BLOCKS : Nat := 25

/-- The child addresses a factory derives from a list of cached factory
logs (each `Set.add` of the source is one element here; the set is read
through membership). -/
def childAddresses (f : Factory) (logs : List SyncLog) : List String :=
  (logs.filter (fun log => isLogFactoryMatched f log)).map (fun log => getChildAddress log f)

/-- `handleBlock` step (a): insert the incoming block's factory children
into `unfinalizedChildAddresses` (`realtime/index.ts` lines 200-209). -/
def addChildren (factories : List Factory) (uca : Factory → List String)
    (factoryLogs : List SyncLog) : Factory → List String :=
  fun f => if f ∈ factories then uca f ++ childAddresses f factoryLogs else uca f

/-- Recompute `unfinalizedChildAddresses` from scratch over the remaining
unfinalized blocks' cached factory logs (`realtime/index.ts` lines 398-415
and 492-509); `clear()` leaves non-factory keys empty. -/
def recomputeChildren (factories : List Factory) (flpb : String → List SyncLog)
    (blocks : List LightBlock) : Factory → List String :=
  fun f => if f ∈ factories then blocks.flatMap (fun blk => childAddresses f (flpb blk.hash)) else []

/-- Delete the given blocks' entries from `factoryLogsPerBlock`. -/
def deleteHashes (flpb : String → List SyncLog) (blocks : List LightBlock) :
    String → List SyncLog :=
  fun h => if blocks.any (fun b => b.hash = h) then [] else flpb h

/-- The factory-membership side condition of the full log re-filter in
`handleBlock` (`realtime/index.ts` lines 225-232). -/
def logFactoryCheck (fca uca : Factory → List String) (f : LogFilter) (log : SyncLog) : Bool :=
  match f.address with
  | .factory fac =>
      (fca fac).contains (toLowerCase log.address) ||
        (uca fac).contains (toLowerCase log.address)
  | _ => true

/-- `handleBlock`'s full log re-filter with factory addresses
(`realtime/index.ts` lines 219-240). -/
def matchLogs (cfg : RtConfig) (fca uca : Factory → List String) (block : SyncBlock)
    (logs : List SyncLog) : List SyncLog :=
  logs.filter (fun log =>
    cfg.logFilters.any (fun f => isLogFilterMatched f block log && logFactoryCheck fca uca f log))

/-- `handleBlock`'s trace re-filter (`realtime/index.ts` lines 243-272). -/
def matchTraces (cfg : RtConfig) (block : SyncBlock) (traces : List SyncTrace) : List SyncTrace :=
  traces.filter (fun tr =>
    cfg.transferFilters.any (fun f => isTransferFilterMatched f block.number tr.trace) ||
      cfg.traceFilters.any (fun f => isTraceFilterMatched f block.number tr.trace))

/-- The `transactionHashes` set collected from the matched logs and traces
(`realtime/index.ts` lines 275-281). -/
def requiredTxHashes (logs : List SyncLog) (traces : List SyncTrace) : List String :=
  logs.map (fun log => log.transactionHash) ++ traces.map (fun tr => tr.transactionHash)

/-- The `matchedFilters` set accumulated across the re-filter passes
(`realtime/index.ts` lines 216-305); the JS `Set` is read through
membership. -/
def matchedFiltersOf (cfg : RtConfig) (fca uca : Factory → List String) (block : SyncBlock)
    (logs : List SyncLog) (traces : List SyncTrace) (txs : List SyncTransaction) : List Filter :=
  (cfg.logFilters.filter (fun f =>
      logs.any (fun log => isLogFilterMatched f block log && logFactoryCheck fca uca f log))).map .log
    ++ (cfg.transferFilters.filter (fun f =>
        traces.any (fun tr => isTransferFilterMatched f block.number tr.trace))).map .transfer
    ++ (cfg.traceFilters.filter (fun f =>
        traces.any (fun tr => isTraceFilterMatched f block.number tr.trace))).map .trace
    ++ (cfg.transactionFilters.filter (fun f =>
        txs.any (fun t => isTransactionFilterMatched f block.number t))).map .transaction
    ++ (cfg.blockFilters.filter (fun f => isBlockFilterMatched f block)).map .block

/-- `handleBlock` (`realtime/index.ts` lines 187-431) as a pure state
transformer: returns the new state, the emitted events in order, and
`some err` when the uncaught `find(...)!` dereference would throw. -/
def handleBlockFn (cfg : RtConfig) (st : RtState) (inp : BlockInput) :
    RtState × List REvent × Option String :=
  let uca1 := addChildren cfg.factories st.unfinalizedChildAddresses inp.factoryLogs
  let logs1 := matchLogs cfg st.finalizedChildAddresses uca1 inp.block inp.logs
  let traces1 := matchTraces cfg inp.block inp.traces
  let txh := requiredTxHashes logs1 traces1
  let txs1 := inp.transactions.filter (fun t => txh.contains t.hash)
  let receipts1 := inp.transactionReceipts.filter (fun r => txh.contains r.transactionHash)
  let filters := matchedFiltersOf cfg st.finalizedChildAddresses uca1 inp.block
    inp.logs inp.traces inp.transactions
  let unf1 := st.unfinalizedBlocks ++ [syncBlockToLightBlock inp.block]
  let blockEvent := REvent.blockEv
    { filters := filters, block := { inp.block with transactions := [] }, logs := logs1,
      factoryLogs := inp.factoryLogs, traces := traces1, transactions := txs1,
      transactionReceipts := receipts1 }
  if st.finalizedBlock.number + 2 * cfg.finalityBlockCount ≤ inp.block.number then
    match unf1.find? (fun lb => lb.number = inp.block.number - cfg.finalityBlockCount) with
    | none =>
        ({ st with unfinalizedBlocks := unf1, unfinalizedChildAddresses := uca1 },
         [blockEvent], some "TypeError: no block at number - finalityBlockCount")
    | some pending =>
        let finalizedBlocks := unf1.filter (fun lb => lb.number ≤ pending.number)
        let unf2 := unf1.filter (fun lb => pending.number < lb.number)
        let fca1 := fun f => if f ∈ cfg.factories then
            st.finalizedChildAddresses f ++
              finalizedBlocks.flatMap (fun blk => childAddresses f (st.factoryLogsPerBlock blk.hash))
          else st.finalizedChildAddresses f
        let uca2 := recomputeChildren cfg.factories st.factoryLogsPerBlock unf2
        let flpb1 := deleteHashes st.factoryLogsPerBlock finalizedBlocks
        ({ st with
            finalizedBlock := pending
            unfinalizedBlocks := unf2
            finalizedChildAddresses := fca1
            unfinalizedChildAddresses := uca2
            factoryLogsPerBlock := flpb1 },
         [blockEvent, REvent.finalizeEv pending], none)
  else
    ({ st with unfinalizedBlocks := unf1, unfinalizedChildAddresses := uca1 },
     [blockEvent], none)

/-- The last element of a block list, or the given fallback when empty. -/
def latestOf (prev : LightBlock) (l : List LightBlock) : LightBlock :=
  l.getLast?.getD prev

/-- `getLatestUnfinalizedBlock` (`realtime/index.ts` lines 734-738). -/
def getLatestUnfinalizedBlock (st : RtState) : LightBlock :=
  latestOf st.finalizedBlock st.unfinalizedBlocks

/-- The `handleReorg` walk-back loop (`realtime/index.ts` lines 459-479):
pop the local tip into `reorgedBlocks` and follow the remote parent chain
(`remoteParent` maps a block hash to that block's `parentHash`) until the
local head matches, or report exhaustion (`none`). -/
def walkBack (fin : LightBlock) (remoteParent : String → String)
    (l reorged : List LightBlock) (p : String) :
    List LightBlock × List LightBlock × Option LightBlock :=
  match hl : l.getLast? with
  | none =>
      if fin.hash = p then (l, reorged, some fin) else (l, reorged, none)
  | some last =>
      if last.hash = p then (l, reorged, some last)
      else walkBack fin remoteParent l.dropLast (reorged ++ [last]) (remoteParent p)
termination_by l.length
decreasing_by
  have hne : l ≠ [] := by
    intro h
    subst h
    simp at hl
  have hpos : 0 < l.length := List.length_pos.mpr hne
  simp only [List.length_dropLast]
  omega

/-- The error message of an unrecoverable reorg. -/
def reorgErrMsg : String := "unrecoverable reorg beyond finalized block"

/-- `handleReorg` (`realtime/index.ts` lines 440-515) as a pure state
transformer: prune blocks at or above the forked height, walk back to a
common ancestor, and either emit the single `reorg` event and update the
factory state, or fail with the unrecoverable-reorg error (leaving the
exhausted list and the untouched factory state behind, as the throw skips
the recomputation). -/
def handleReorg (cfg : RtConfig) (remoteParent : String → String) (st : RtState)
    (block : SyncBlock) : RtState × List REvent × Option String :=
  let reorged0 := st.unfinalizedBlocks.filter (fun lb => block.number ≤ lb.number)
  let kept0 := st.unfinalizedBlocks.filter (fun lb => lb.number < block.number)
  match walkBack st.finalizedBlock remoteParent kept0 reorged0 block.parentHash with
  | (kept, _, none) =>
      ({ st with unfinalizedBlocks := kept }, [], some reorgErrMsg)
  | (kept, reorged, some ancestor) =>
      ({ st with
          unfinalizedBlocks := kept
          unfinalizedChildAddresses := recomputeChildren cfg.factories st.factoryLogsPerBlock kept
          factoryLogsPerBlock := deleteHashes st.factoryLogsPerBlock reorged },
       [REvent.reorgEv ancestor reorged], none)

/-- The branch taken by the queue worker for one item. -/
inductive WorkerOutcome where
  | noop
  | reorgDone
  | gapFill (lo hi : Nat)
  | ingested
deriving DecidableEq, Repr

/-- One step of the queue worker (`realtime/index.ts` lines 758-842): the
duplicate no-op, the reorg path, the gap-fill path (which only touches the
queue, not the sync state), and the happy-path ingest (which resets the
shared `consecutiveErrors` on success).  Errors are returned for the
enclosing catch handler (`workerCatchStep`). -/
def workerStep (cfg : RtConfig) (remoteParent : String → String) (st : RtState)
    (inp : BlockInput) : RtState × List REvent × WorkerOutcome × Option String :=
  let latestBlock := getLatestUnfinalizedBlock st
  if latestBlock.hash = inp.block.hash then (st, [], .noop, none)
  else if inp.block.number ≤ latestBlock.number then
    match handleReorg cfg remoteParent st inp.block with
    | (st', evs, err) => (st', evs, .reorgDone, err)
  else if latestBlock.number + 1 < inp.block.number then
    (st, [],
     .gapFill (latestBlock.number + 1) (min inp.block.number (latestBlock.number + MAX_QUEUED_BLOCKS)),
     none)
  else if inp.block.parentHash ≠ latestBlock.hash then
    match handleReorg cfg remoteParent st inp.block with
    | (st', evs, err) => (st', evs, .reorgDone, err)
  else
    match handleBlockFn cfg st inp with
    | (st', evs, none) => ({ st' with consecutiveErrors := 0 }, evs, .ingested, none)
    | (st', evs, some e) => (st', evs, .ingested, some e)

/-- The worker's catch handler (`realtime/index.ts` lines 843-880):
increment the shared `consecutiveErrors` and report whether the fatal
threshold (`ERROR_TIMEOUT.length`) was reached. -/
def workerCatchStep (st : RtState) : RtState × Bool :=
  ({ st with consecutiveErrors := st.consecutiveErrors + 1 },
   decide (st.consecutiveErrors + 1 = ERROR_TIMEOUT.length))

/-- The poller's `enqueue` (`realtime/index.ts` lines 884-929) restricted
to its effect on the shared `consecutiveErrors`: `fetched = none` is a
failed latest-block fetch; a duplicate head returns before the reset;
`eventDataOk = false` is a failed `fetchBlockEventData`; otherwise the
counter is reset to zero.  The second component reports a fatal
promotion. -/
def pollStep (st : RtState) (fetched : Option SyncBlock) (eventDataOk : Bool) :
    RtState × Bool :=
  match fetched with
  | none =>
      ({ st with consecutiveErrors := st.consecutiveErrors + 1 },
       decide (st.consecutiveErrors + 1 = ERROR_TIMEOUT.length))
  | some block =>
      if (getLatestUnfinalizedBlock st).hash = block.hash then (st, false)
      else if eventDataOk = false then
        ({ st with consecutiveErrors := st.consecutiveErrors + 1 },
         decide (st.consecutiveErrors + 1 = ERROR_TIMEOUT.length))
      else ({ st with consecutiveErrors := 0 }, false)

/-- The chain invariant: each entry extends its predecessor by one block
number and links to it by `parentHash`; the first entry links to the
given predecessor (the finalized block). -/
def chainedB (prev : LightBlock) : List LightBlock → Bool
  | [] => true
  | b :: rest => b.parentHash = prev.hash && b.number = prev.number + 1 && chainedB b rest

/-- The pipeline's chain invariant over its state. -/
def chainInvB (st : RtState) : Bool :=
  chainedB st.finalizedBlock st.unfinalizedBlocks

/-- The factory-tracker invariant: for every registered factory, the
unfinalized child-address set is exactly the union, over the blocks in
`unfinalizedBlocks`, of the children decoded from that block's cached
factory logs. -/
def childInv (cfg : RtConfig) (st : RtState) : Prop :=
  ∀ f ∈ cfg.factories, ∀ a : String,
    a ∈ st.unfinalizedChildAddresses f ↔
      ∃ blk ∈ st.unfinalizedBlocks, a ∈ childAddresses f (st.factoryLogsPerBlock blk.hash)

/-! ## Event builder (`events.ts`) -/

/-- Modelled from the spec: the checkpoint key (`@/utils/checkpoint.js`,
not under `src/`), fields in decreasing significance. -/
structure Checkpoint where
  blockTimestamp : Nat
  chainId : Nat
  blockNumber : Nat
  transactionIndex : Nat
  eventType : Nat
  eventIndex : Nat
deriving DecidableEq, Repr

/-- Modelled from the spec: event-type ranks, `block < transaction < log <
trace` (`EVENT_TYPES` of `@/utils/checkpoint.js`, not under `src/`). -/
def EVENT_TYPES.blocks : Nat := 1

def EVENT_TYPES.transactions : Nat := 2

def EVENT_TYPES.logs : Nat := 3

def EVENT_TYPES.traces : Nat := 4

/-- Modelled from the spec: the sentinel maximum `transactionIndex` of
`maxCheckpoint` (`@/utils/checkpoint.js`, not under `src/`). -/
def maxCheckpoint.transactionIndex : Nat := 9999999999999999

/-- Modelled from the spec: the zero `eventIndex` of `zeroCheckpoint`
(`@/utils/checkpoint.js`, not under `src/`). -/
def zeroCheckpoint.eventIndex : Nat := 0

/-- Zero-padded fixed-width decimal rendering of one checkpoint field. -/
def padLeft (w : Nat) (n : Nat) : String :=
  let s := toString n
  String.mk (List.replicate (w - s.length) '0') ++ s

/-- Modelled from the spec: `encodeCheckpoint` (`@/utils/checkpoint.js`,
not under `src/`) renders the fields, most significant first, to a
lexicographically sortable fixed-width decimal string. -/
def encodeCheckpoint (c : Checkpoint) : String :=
  padLeft 10 c.blockTimestamp ++ padLeft 16 c.chainId ++ padLeft 16 c.blockNumber ++
    padLeft 16 c.transactionIndex ++ padLeft 1 c.eventType ++ padLeft 16 c.eventIndex

/-- A `RawEvent` restricted to the fields the ordering claims consult. -/
structure RawEvent where
  chainId : Nat
  sourceIndex : Nat
  checkpoint : String
deriving DecidableEq, Repr

/-- The data `buildEvents` receives besides `sources`: the chain id, the
`BlockWithEventData` pieces it reads, and the two child-address maps. -/
structure BuildCtx where
  chainId : Nat
  block : SyncBlock
  logs : List SyncLog
  traces : List SyncTrace
  transactions : List SyncTransaction
  fca : Factory → List String
  uca : Factory → List String

/-- The events one source contributes in `buildEvents` (`events.ts` lines
200-378): each variant filters its records and pushes one event per match;
sources on another chain contribute nothing.  The `transactionCache.get`
of the trace/transfer cases is a lookup in `block.transactions`-derived
`transactions` (the source indexes with `!`; a missing entry would throw,
the model reads index 0). -/
def eventsForSource (ctx : BuildCtx) (i : Nat) (src : Filter) : List RawEvent :=
  match src with
  | .log f =>
      if ctx.chainId ≠ f.chainId then [] else
      (ctx.logs.filter (fun log =>
          isLogFilterMatched f ctx.block log &&
            (match f.address with
             | .factory fac =>
                 (ctx.fca fac).contains log.address || (ctx.uca fac).contains log.address
             | _ => true))).map (fun log =>
        { chainId := f.chainId, sourceIndex := i,
          checkpoint := encodeCheckpoint
            { blockTimestamp := ctx.block.timestamp, chainId := f.chainId,
              blockNumber := log.blockNumber, transactionIndex := log.transactionIndex,
              eventType := EVENT_TYPES.logs, eventIndex := log.logIndex } })
  | .trace f =>
      if ctx.chainId ≠ f.chainId then [] else
      (ctx.traces.filter (fun tr => isTraceFilterMatched f ctx.block.number tr.trace)).map
        (fun tr =>
          { chainId := f.chainId, sourceIndex := i,
            checkpoint := encodeCheckpoint
              { blockTimestamp := ctx.block.timestamp, chainId := f.chainId,
                blockNumber := ctx.block.number,
                transactionIndex :=
                  (((ctx.transactions.find? (fun t => t.hash = tr.transactionHash)).map
                      (fun t => t.transactionIndex)).getD 0),
                eventType := EVENT_TYPES.traces, eventIndex := tr.position } })
  | .transaction f =>
      if ctx.chainId ≠ f.chainId then [] else
      (ctx.transactions.filter (fun t => isTransactionFilterMatched f ctx.block.number t)).map
        (fun t =>
          { chainId := f.chainId, sourceIndex := i,
            checkpoint := encodeCheckpoint
              { blockTimestamp := ctx.block.timestamp, chainId := f.chainId,
                blockNumber := ctx.block.number, transactionIndex := t.transactionIndex,
                eventType := EVENT_TYPES.transactions, eventIndex := 0 } })
  | .transfer f =>
      if ctx.chainId ≠ f.chainId then [] else
      (ctx.traces.filter (fun tr => isTransferFilterMatched f ctx.block.number tr.trace)).map
        (fun tr =>
          { chainId := f.chainId, sourceIndex := i,
            checkpoint := encodeCheckpoint
              { blockTimestamp := ctx.block.timestamp, chainId := f.chainId,
                blockNumber := ctx.block.number,
                transactionIndex :=
                  (((ctx.transactions.find? (fun t => t.hash = tr.transactionHash)).map
                      (fun t => t.transactionIndex)).getD 0),
                eventType := EVENT_TYPES.traces, eventIndex := tr.position } })
  | .block f =>
      if ctx.chainId ≠ f.chainId then [] else
      if isBlockFilterMatched f ctx.block then
        [{ chainId := f.chainId, sourceIndex := i,
           checkpoint := encodeCheckpoint
             { blockTimestamp := ctx.block.timestamp, chainId := f.chainId,
               blockNumber := ctx.block.number,
               transactionIndex := maxCheckpoint.transactionIndex,
               eventType := EVENT_TYPES.blocks,
               eventIndex := zeroCheckpoint.eventIndex } }]
      else []

/-- The source loop of `buildEvents`, carrying the running source index. -/
def buildEventsAux (ctx : BuildCtx) : Nat → List Filter → List RawEvent
  | _, [] => []
  | i, src :: rest => eventsForSource ctx i src ++ buildEventsAux ctx (i + 1) rest

/-- `buildEvents` (`events.ts` lines 167-381): enumerate sources, then
`events.sort((a, b) => (a.checkpoint < b.checkpoint ? -1 : 1))`, an
ascending sort by the checkpoint string. -/
def buildEvents (sources : List Filter) (ctx : BuildCtx) : List RawEvent :=
  (buildEventsAux ctx 0 sources).mergeSort (fun a b => decide (a.checkpoint ≤ b.checkpoint))

/-! ## Value-constraint normalization -/

/-- A constraint is lowercase-normalized when each of its values is fixed
by `toLowerCase`; filter constraints are built lowercased. -/
def ValueConstraint.normalizedB : ValueConstraint → Bool
  | .absent => true
  | .single v => toLowerCase v = v
  | .many vs => vs.all (fun v => toLowerCase v = v)

/-! ## Concrete inputs used by witnesses and counterexamples -/

def c5Filter : TransactionFilter :=
  { chainId := 1, fromBlock := none, toBlock := none, fromAddress := .absent,
    toAddress := .single "0xaaaaaaaaaaaaaaaaaaaaaaaaaaaaaaaaaaaaaaaa", includeReverted := false }

def c5Tx : SyncTransaction :=
  { hash := "0xt1", from_ := "0xffffffffffffffffffffffffffffffffffffffff",
    to_ := none, input := "0x", transactionIndex := 0 }

def c8base : RtState :=
  { finalizedBlock := { number := 100, hash := "0xh100", parentHash := "0xh99", timestamp := 0 }
    unfinalizedBlocks := []
    finalizedChildAddresses := fun _ => []
    unfinalizedChildAddresses := fun _ => []
    factoryLogsPerBlock := fun _ => []
    consecutiveErrors := 0 }

def c8blk : SyncBlock :=
  { number := 101, hash := "0xh101", parentHash := "0xh100", timestamp := 1,
    logsBloom := "0x0", transactions := [] }

def cfg0 : RtConfig :=
  { finalityBlockCount := 2, factories := [], logFilters := [], traceFilters := [],
    transactionFilters := [], transferFilters := [], blockFilters := [] }

def inp101 : BlockInput :=
  { block := c8blk, logs := [], factoryLogs := [], traces := [], transactions := [],
    transactionReceipts := [] }

def lb101 : LightBlock := { number := 101, hash := "0xh101", parentHash := "0xh100", timestamp := 1 }

def lb102 : LightBlock := { number := 102, hash := "0xh102", parentHash := "0xh101", timestamp := 2 }

def lb103 : LightBlock := { number := 103, hash := "0xh103", parentHash := "0xh102", timestamp := 3 }

def c3st : RtState :=
  { finalizedBlock := { number := 100, hash := "0xh100", parentHash := "0xh99", timestamp := 0 }
    unfinalizedBlocks := [lb101, lb102, lb103]
    finalizedChildAddresses := fun _ => []
    unfinalizedChildAddresses := fun _ => []
    factoryLogsPerBlock := fun _ => []
    consecutiveErrors := 0 }

def c3inp : BlockInput :=
  { block := { number := 104, hash := "0xh104", parentHash := "0xh103", timestamp := 4,
               logsBloom := "0x0", transactions := [] },
    logs := [], factoryLogs := [], traces := [], transactions := [],
    transactionReceipts := [] }

def c10tf : TransactionFilter :=
  { chainId := 1, fromBlock := none, toBlock := none, fromAddress := .absent,
    toAddress := .absent, includeReverted := true }

def c10cfg : RtConfig := { cfg0 with transactionFilters := [c10tf] }

def c10tx : SyncTransaction :=
  { hash := "0xt1", from_ := "0xf", to_ := some "0xaa", input := "0x", transactionIndex := 0 }

def c10inp : BlockInput :=
  { block := c8blk, logs := [], factoryLogs := [], traces := [], transactions := [c10tx],
    transactionReceipts := [] }

def c2blk : SyncBlock :=
  { number := 101, hash := "0xh101b", parentHash := "0xh100", timestamp := 5,
    logsBloom := "0x0", transactions := [] }

def c9bf : BlockFilter :=
  { chainId := 1, fromBlock := none, toBlock := none, interval := 1, offset := 0 }

def c9ctx : BuildCtx :=
  { chainId := 1, block := c8blk, logs := [], traces := [], transactions := [],
    fca := fun _ => [], uca := fun _ => [] }

def c9event : RawEvent :=
  { chainId := 1, sourceIndex := 0,
    checkpoint := encodeCheckpoint
      { blockTimestamp := 1, chainId := 1, blockNumber := 101,
        transactionIndex := maxCheckpoint.transactionIndex,
        eventType := EVENT_TYPES.blocks, eventIndex := zeroCheckpoint.eventIndex } }

/-! ## Chain lemmas -/

theorem latestOf_cons (prev x : LightBlock) (rest : List LightBlock) :
    latestOf prev (x :: rest) = latestOf x rest := by
  cases rest with
  | nil => rfl
  | cons y t =>
      obtain ⟨z, hz⟩ := Option.isSome_iff_exists.mp
        (List.getLast?_isSome.mpr (List.cons_ne_nil y t))
      simp [latestOf, List.getLast?_cons_cons, hz]

theorem latestOf_concat (prev b : LightBlock) (l : List LightBlock) :
    latestOf prev (l ++ [b]) = b := by
  simp [latestOf, List.getLast?_concat]

theorem chainedB_cons_iff (prev x : LightBlock) (rest : List LightBlock) :
    chainedB prev (x :: rest) = true ↔
      (x.parentHash = prev.hash ∧ x.number = prev.number + 1 ∧ chainedB x rest = true) := by
  simp [chainedB, Bool.and_eq_true, and_assoc]

theorem chainedB_gt (prev : LightBlock) (l : List LightBlock)
    (h : chainedB prev l = true) : ∀ x ∈ l, prev.number < x.number := by
  induction l generalizing prev with
  | nil => simp
  | cons x rest ih =>
      obtain ⟨-, hn, hrest⟩ := (chainedB_cons_iff prev x rest).mp h
      intro y hy
      rcases List.mem_cons.mp hy with hy | hy
      · subst hy
        omega
      · have := ih x hrest y hy
        omega

theorem chainedB_latest_ge (prev : LightBlock) (l : List LightBlock)
    (h : chainedB prev l = true) : prev.number ≤ (latestOf prev l).number := by
  induction l generalizing prev with
  | nil => simp [latestOf]
  | cons x rest ih =>
      obtain ⟨-, hn, hrest⟩ := (chainedB_cons_iff prev x rest).mp h
      rw [latestOf_cons]
      have := ih x hrest
      omega

theorem chainedB_concat (prev b : LightBlock) (l : List LightBlock)
    (h : chainedB prev l = true)
    (hp : b.parentHash = (latestOf prev l).hash)
    (hn : b.number = (latestOf prev l).number + 1) :
    chainedB prev (l ++ [b]) = true := by
  induction l generalizing prev with
  | nil =>
      simp only [latestOf, List.getLast?_nil, Option.getD_none] at hp hn
      simp [chainedB, hp, hn]
  | cons x rest ih =>
      obtain ⟨h1, h2, hrest⟩ := (chainedB_cons_iff prev x rest).mp h
      rw [latestOf_cons] at hp hn
      exact (chainedB_cons_iff prev x (rest ++ [b])).mpr ⟨h1, h2, ih x hrest hp hn⟩

theorem chainedB_take (prev : LightBlock) (l : List LightBlock) (m : Nat)
    (h : chainedB prev l = true) : chainedB prev (l.take m) = true := by
  induction l generalizing prev m with
  | nil => simp [chainedB]
  | cons x rest ih =>
      cases m with
      | zero => simp [chainedB]
      | succ m =>
          obtain ⟨h1, h2, hrest⟩ := (chainedB_cons_iff prev x rest).mp h
          exact (chainedB_cons_iff prev x (rest.take m)).mpr ⟨h1, h2, ih x m hrest⟩

theorem chainedB_filter_lt (prev : LightBlock) (l : List LightBlock) (k : Nat)
    (h : chainedB prev l = true) :
    chainedB prev (l.filter (fun b => decide (b.number < k))) = true := by
  induction l generalizing prev with
  | nil => simp [chainedB]
  | cons x rest ih =>
      obtain ⟨h1, h2, hrest⟩ := (chainedB_cons_iff prev x rest).mp h
      by_cases hx : x.number < k
      · rw [List.filter_cons_of_pos (by simpa using hx)]
        exact (chainedB_cons_iff prev x _).mpr ⟨h1, h2, ih x hrest⟩
      · rw [List.filter_cons_of_neg (by simpa using hx)]
        have hnil : rest.filter (fun b => decide (b.number < k)) = [] := by
          rw [List.filter_eq_nil_iff]
          intro y hy
          have := chainedB_gt x rest hrest y hy
          simp only [decide_eq_true_eq]
          omega
        rw [hnil]
        simp [chainedB]

theorem chainedB_filter_gt (prev p : LightBlock) (l : List LightBlock)
    (h : chainedB prev l = true) (hp : p ∈ l) :
    chainedB p (l.filter (fun b => decide (p.number < b.number))) = true := by
  induction l generalizing prev with
  | nil => simp at hp
  | cons x rest ih =>
      obtain ⟨h1, h2, hrest⟩ := (chainedB_cons_iff prev x rest).mp h
      rcases List.mem_cons.mp hp with hpx | hpr
      · subst hpx
        rw [List.filter_cons_of_neg (by simp)]
        have hall : rest.filter (fun b => decide (p.number < b.number)) = rest := by
          rw [List.filter_eq_self]
          intro y hy
          simpa using chainedB_gt p rest hrest y hy
        rw [hall]
        exact hrest
      · have hxp : x.number < p.number := chainedB_gt x rest hrest p hpr
        rw [List.filter_cons_of_neg (by simp; omega)]
        exact ih x hrest hpr

theorem chainedB_exists_number (prev : LightBlock) (l : List LightBlock) (k : Nat)
    (h : chainedB prev l = true) (h1 : prev.number < k)
    (h2 : k ≤ (latestOf prev l).number) : ∃ x ∈ l, x.number = k := by
  induction l generalizing prev with
  | nil =>
      simp only [latestOf, List.getLast?_nil, Option.getD_none] at h2
      omega
  | cons x rest ih =>
      obtain ⟨-, hn, hrest⟩ := (chainedB_cons_iff prev x rest).mp h
      rw [latestOf_cons] at h2
      by_cases hk : x.number = k
      · exact ⟨x, List.mem_cons_self x rest, hk⟩
      · have hlt : x.number < k := by omega
        obtain ⟨y, hy, hyk⟩ := ih x hrest hlt h2
        exact ⟨y, List.mem_cons_of_mem x hy, hyk⟩

/-! ## walkBack lemmas -/

theorem walkBack_split (fin : LightBlock) (rp : String → String) (l r : List LightBlock)
    (p : String) :
    ∃ m o, m ≤ l.length ∧ walkBack fin rp l r p = (l.take m, r ++ (l.drop m).reverse, o) := by
  induction l, r, p using walkBack.induct fin rp with
  | case1 l r hl =>
      have hnil : l = [] := List.getLast?_eq_none_iff.mp hl
      subst hnil
      rw [walkBack]
      exact ⟨0, some fin, by simp, by simp⟩
  | case2 l r p hl hne =>
      have hnil : l = [] := List.getLast?_eq_none_iff.mp hl
      subst hnil
      rw [walkBack]
      exact ⟨0, none, by simp, by simp [hne]⟩
  | case3 l r last hl =>
      rw [walkBack]
      split
      · simp_all
      · rename_i last' heq
        rw [hl] at heq
        obtain rfl : last = last' := (Option.some.injEq _ _).mp heq
        rw [if_pos rfl]
        exact ⟨l.length, some last, le_refl _, by simp⟩
  | case4 l r p last hl hne ih =>
      rw [walkBack]
      split
      · simp_all
      · rename_i last' heq
        rw [hl] at heq
        obtain rfl : last = last' := (Option.some.injEq _ _).mp heq
        rw [if_neg hne]
        obtain ⟨m, o, hm, h1⟩ := ih
        have hlne : l ≠ [] := by
          intro hc
          subst hc
          simp at hl
        have hlast : last = l.getLast hlne := by
          have h3 := List.getLast?_eq_getLast l hlne
          rw [hl] at h3
          exact (Option.some.injEq _ _).mp h3
        have hsplit : l.dropLast ++ [last] = l := by
          rw [hlast]
          exact List.dropLast_concat_getLast hlne
        have hmle : m ≤ l.length - 1 := by
          rw [List.length_dropLast] at hm
          exact hm
        refine ⟨m, o, by omega, ?_⟩
        rw [h1]
        have htake : l.dropLast.take m = l.take m := by
          rw [List.dropLast_eq_take, List.take_take, min_eq_left hmle]
        have hdrop : l.drop m = l.dropLast.drop m ++ [last] := by
          conv_lhs => rw [← hsplit]
          rw [List.drop_append_of_le_length (by rw [List.length_dropLast]; exact hmle)]
        rw [htake, hdrop, List.reverse_append, List.reverse_singleton, List.singleton_append,
          List.append_assoc]
        simp

theorem walkBack_none_nil (fin : LightBlock) (rp : String → String) (l r : List LightBlock)
    (p : String) (kept reorged : List LightBlock)
    (h : walkBack fin rp l r p = (kept, reorged, none)) : kept = [] := by
  induction l, r, p using walkBack.induct fin rp generalizing kept reorged with
  | case1 l r hl =>
      have hnil : l = [] := List.getLast?_eq_none_iff.mp hl
      subst hnil
      rw [walkBack] at h
      simp at h
  | case2 l r p hl hne =>
      have hnil : l = [] := List.getLast?_eq_none_iff.mp hl
      subst hnil
      rw [walkBack] at h
      simp [hne] at h
      exact h.1
  | case3 l r last hl =>
      rw [walkBack] at h
      split at h
      · simp_all
      · rename_i last' heq
        rw [hl] at heq
        obtain rfl : last = last' := (Option.some.injEq _ _).mp heq
        rw [if_pos rfl] at h
        simp at h
  | case4 l r p last hl hne ih =>
      rw [walkBack] at h
      split at h
      · simp_all
      · rename_i last' heq
        rw [hl] at heq
        obtain rfl : last = last' := (Option.some.injEq _ _).mp heq
        rw [if_neg hne] at h
        exact ih _ _ h

/-! ## Invariant preservation helpers -/

theorem chainInv_handleReorg (cfg : RtConfig) (rp : String → String) (st : RtState)
    (block : SyncBlock) (h : chainInvB st = true) :
    chainInvB (handleReorg cfg rp st block).1 = true := by
  obtain ⟨m, o, hm, hw⟩ := walkBack_split st.finalizedBlock rp
    (st.unfinalizedBlocks.filter (fun lb => decide (lb.number < block.number)))
    (st.unfinalizedBlocks.filter (fun lb => decide (block.number ≤ lb.number)))
    block.parentHash
  have hkept0 : chainedB st.finalizedBlock
      (st.unfinalizedBlocks.filter (fun lb => decide (lb.number < block.number))) = true :=
    chainedB_filter_lt _ _ _ h
  have htake := chainedB_take st.finalizedBlock _ m hkept0
  simp only [handleReorg]
  rw [hw]
  cases o <;> simpa [chainInvB] using htake

theorem chainInv_handleBlockFn (cfg : RtConfig) (st : RtState) (inp : BlockInput)
    (h : chainInvB st = true)
    (hn : inp.block.number = (getLatestUnfinalizedBlock st).number + 1)
    (hp : inp.block.parentHash = (getLatestUnfinalizedBlock st).hash) :
    chainInvB (handleBlockFn cfg st inp).1 = true := by
  have hunf1 : chainedB st.finalizedBlock
      (st.unfinalizedBlocks ++ [syncBlockToLightBlock inp.block]) = true := by
    refine chainedB_concat _ _ _ h ?_ ?_
    · simpa [syncBlockToLightBlock, getLatestUnfinalizedBlock] using hp
    · simpa [syncBlockToLightBlock, getLatestUnfinalizedBlock] using hn
  simp only [handleBlockFn]
  split
  · split
    · simpa [chainInvB] using hunf1
    · rename_i pending hfind
      have hmem := List.mem_of_find?_eq_some hfind
      simpa [chainInvB] using chainedB_filter_gt _ pending _ hunf1 hmem
  · simpa [chainInvB] using hunf1

/-- C1: every worker-queue operation (duplicate no-op, gap-fill, reorg
rewind -- successful or exhausted -- and happy-path ingest with its
finalization test) preserves the chain invariant: consecutive entries of
`unfinalizedBlocks` are linked by `parentHash`/`hash` with numbers
increasing by one, and the first entry links to `finalizedBlock`. -/
theorem unfinalized_chain_invariant (cfg : RtConfig) (rp : String → String) (st : RtState)
    (inp : BlockInput) (h : chainInvB st = true) :
    chainInvB (workerStep cfg rp st inp).1 = true := by
  have hreorg : chainInvB (handleReorg cfg rp st inp.block).1 = true :=
    chainInv_handleReorg cfg rp st inp.block h
  unfold workerStep
  by_cases h1 : (getLatestUnfinalizedBlock st).hash = inp.block.hash
  · simpa [h1] using h
  · by_cases h2 : inp.block.number ≤ (getLatestUnfinalizedBlock st).number
    · rcases hr : handleReorg cfg rp st inp.block with ⟨st1, evs1, err1⟩
      rw [hr] at hreorg
      simpa [h1, h2, hr] using hreorg
    · by_cases h3 : (getLatestUnfinalizedBlock st).number + 1 < inp.block.number
      · simpa [h1, h2, h3] using h
      · by_cases h4 : inp.block.parentHash = (getLatestUnfinalizedBlock st).hash
        · have hn : inp.block.number = (getLatestUnfinalizedBlock st).number + 1 := by omega
          have hblock : chainInvB (handleBlockFn cfg st inp).1 = true :=
            chainInv_handleBlockFn cfg st inp h hn h4
          rcases hb : handleBlockFn cfg st inp with ⟨st2, evs2, err2⟩
          rw [hb] at hblock
          cases err2 <;> simpa [h1, h2, h3, h4, hb, chainInvB] using hblock
        · rcases hr : handleReorg cfg rp st inp.block with ⟨st1, evs1, err1⟩
          rw [hr] at hreorg
          simpa [h1, h2, h3, h4, hr] using hreorg

/-! ## Claim theorems -/

/-- C6: the value-match predicate returns true iff the constraint is
absent, or equals the candidate case-insensitively, or the list contains
the candidate case-insensitively; a missing candidate never matches a
non-absent constraint and an empty-list constraint matches no candidate
(for constraints stored lowercase-normalized, as the source builds them). -/
theorem isValueMatched_spec (c : ValueConstraint) (e? : Option String)
    (hc : c.normalizedB = true) :
    isValueMatched c e? = true ↔
      (c = .absent ∨
        ∃ e, e? = some e ∧
          ((∃ v, c = .single v ∧ toLowerCase v = toLowerCase e) ∨
            (∃ vs, c = .many vs ∧ ∃ v ∈ vs, toLowerCase v = toLowerCase e))) := by
  cases c with
  | absent => simp [isValueMatched]
  | single v =>
      cases e? with
      | none => simp [isValueMatched]
      | some e =>
          simp only [ValueConstraint.normalizedB, decide_eq_true_eq] at hc
          simp only [isValueMatched, decide_eq_true_eq, Option.some.injEq]
          constructor
          · intro h
            refine Or.inr ⟨e, rfl, Or.inl ⟨v, rfl, ?_⟩⟩
            rw [hc, h]
          · rintro (h | ⟨e', he, (⟨v', hv, h⟩ | ⟨vs, hvs, _⟩)⟩)
            · exact absurd h (by simp)
            · cases hv
              cases he
              rw [hc] at h
              exact h
            · exact absurd hvs (by simp)
  | many vs =>
      cases e? with
      | none => simp [isValueMatched]
      | some e =>
          simp only [ValueConstraint.normalizedB, List.all_eq_true, decide_eq_true_eq] at hc
          simp only [isValueMatched, List.any_eq_true, decide_eq_true_eq, Option.some.injEq]
          constructor
          · rintro ⟨v, hv, h⟩
            exact Or.inr ⟨e, rfl, Or.inr ⟨vs, rfl, v, hv, by rw [hc v hv, h]⟩⟩
          · rintro (h | ⟨e', he, (⟨v', hv, _⟩ | ⟨vs', hvs, v, hv, h⟩)⟩)
            · exact absurd h (by simp)
            · exact absurd hv (by simp)
            · cases he
              cases hvs
              exact ⟨v, hv, by rw [← hc v hv]; exact h⟩

/-- C6 witness: a list constraint matches a differently-cased candidate. -/
theorem isValueMatched_spec_witness :
    (ValueConstraint.many ["0xab"]).normalizedB = true ∧
    (isValueMatched (.many ["0xab"]) (some "0xAB") = true ↔
      ((ValueConstraint.many ["0xab"]) = .absent ∨
        ∃ e, (some "0xAB") = some e ∧
          ((∃ v, (ValueConstraint.many ["0xab"]) = .single v ∧ toLowerCase v = toLowerCase e) ∨
            (∃ vs, (ValueConstraint.many ["0xab"]) = .many vs ∧
              ∃ v ∈ vs, toLowerCase v = toLowerCase e)))) :=
  ⟨by decide, isValueMatched_spec (.many ["0xab"]) (some "0xAB") (by decide)⟩

/-- C5 counterexample: a transaction with no `to` field (contract
creation) passes a present, non-factory `toAddress` constraint, because
the `transaction.to &&` truthiness guard skips the check. -/
theorem missing_to_counterexample :
    isAddressFactory c5Filter.toAddress = false ∧
    c5Filter.toAddress ≠ .absent ∧
    c5Tx.to_ = none ∧
    isTransactionFilterMatched c5Filter 5 c5Tx = true := by
  refine ⟨rfl, by decide, rfl, by decide⟩

/-- C5 amended: for a transaction lacking a `to` field the `toAddress`
constraint is skipped entirely, so the match result does not depend on
`toAddress` at all. -/
theorem isTransactionFilterMatched_missing_to (f : TransactionFilter) (n : Nat)
    (tx : SyncTransaction) (h : tx.to_ = none) (c : AddressConstraint) :
    isTransactionFilterMatched { f with toAddress := c } n tx =
      isTransactionFilterMatched f n tx := by
  simp [isTransactionFilterMatched, h]

/-- C5 amended witness: replacing the `toAddress` constraint changes
nothing for a `to`-less transaction. -/
theorem isTransactionFilterMatched_missing_to_witness :
    c5Tx.to_ = none ∧
    isTransactionFilterMatched { c5Filter with toAddress := .many [] } 5 c5Tx =
      isTransactionFilterMatched c5Filter 5 c5Tx :=
  ⟨rfl, isTransactionFilterMatched_missing_to c5Filter 5 c5Tx rfl (.many [])⟩

/-- C7: a queue item whose block hash equals the current head's hash is a
no-op: no event is emitted and the whole pipeline state (unfinalized
blocks, finalized block, both child-address maps) is returned untouched. -/
theorem workerStep_duplicate_noop (cfg : RtConfig) (rp : String → String) (st : RtState)
    (inp : BlockInput) (h : (getLatestUnfinalizedBlock st).hash = inp.block.hash) :
    workerStep cfg rp st inp = (st, [], .noop, none) := by
  simp [workerStep, h]

/-- C7 witness: processing the head block again is a no-op. -/
theorem workerStep_duplicate_noop_witness :
    (getLatestUnfinalizedBlock c8base).hash = "0xh100" ∧
    workerStep
        { finalityBlockCount := 2, factories := [], logFilters := [], traceFilters := [],
          transactionFilters := [], transferFilters := [], blockFilters := [] }
        (fun _ => "") c8base
        { block := { number := 100, hash := "0xh100", parentHash := "0xh99", timestamp := 0,
                     logsBloom := "0x0", transactions := [] },
          logs := [], factoryLogs := [], traces := [], transactions := [],
          transactionReceipts := [] } =
      (c8base, [], .noop, none) :=
  ⟨by decide, workerStep_duplicate_noop _ _ _ _ (by decide)⟩

/-- C8 counterexample: the poller shares the worker's `consecutiveErrors`.
After thirteen worker failures the count is 13; a single poll failure then
reaches the fatal threshold (so poll failures do advance the worker's
budget), and a successful poll resets the count to 0. -/
theorem poll_error_budget_counterexample :
    ((fun s => (workerCatchStep s).1)^[13] c8base).consecutiveErrors = 13 ∧
    (pollStep ((fun s => (workerCatchStep s).1)^[13] c8base) none true).2 = true ∧
    (pollStep ((fun s => (workerCatchStep s).1)^[13] c8base) (some c8blk) true).1.consecutiveErrors
      = 0 := by
  refine ⟨rfl, rfl, rfl⟩

/-- C8 amended: the poller and the pipeline worker share one
`consecutiveErrors` counter with the same `ERROR_TIMEOUT` schedule and
fatal threshold: a poll failure increments the shared counter (fatal
exactly at `ERROR_TIMEOUT.length`), a successful non-duplicate poll resets
it to zero, and the worker's catch handler increments the very same
counter with the same fatal threshold. -/
theorem shared_error_counter (st : RtState) (b : SyncBlock)
    (hdup : (getLatestUnfinalizedBlock st).hash ≠ b.hash) :
    (pollStep st none true).1.consecutiveErrors = st.consecutiveErrors + 1 ∧
    ((pollStep st none true).2 = true ↔ st.consecutiveErrors + 1 = ERROR_TIMEOUT.length) ∧
    (pollStep st (some b) true).1.consecutiveErrors = 0 ∧
    (workerCatchStep st).1.consecutiveErrors = st.consecutiveErrors + 1 ∧
    ((workerCatchStep st).2 = true ↔ st.consecutiveErrors + 1 = ERROR_TIMEOUT.length) := by
  refine ⟨rfl, by simp [pollStep], ?_, rfl, by simp [workerCatchStep]⟩
  simp [pollStep, hdup]

/-- C8 amended witness: a successful poll resets the shared counter. -/
theorem shared_error_counter_witness :
    (getLatestUnfinalizedBlock c8base).hash ≠ c8blk.hash ∧
    (pollStep c8base (some c8blk) true).1.consecutiveErrors = 0 :=
  ⟨by decide, (shared_error_counter c8base c8blk (by decide)).2.2.1⟩

/-- C1 witness: ingesting block 101 on an empty unfinalized list keeps the
chain invariant. -/
theorem unfinalized_chain_invariant_witness :
    chainInvB c8base = true ∧
    chainInvB (workerStep cfg0 (fun _ => "") c8base inp101).1 = true :=
  ⟨by decide, unfinalized_chain_invariant cfg0 (fun _ => "") c8base inp101 (by decide)⟩

/-- C3: happy-path finalization.  When the ingested number reaches
`finalizedBlock.number + 2 * finalityBlockCount`, the unfinalized entry at
`number - finalityBlockCount` is found, becomes the new `finalizedBlock`,
it and every entry at or below its number are dropped from
`unfinalizedBlocks`, their factory children are merged into
`finalizedChildAddresses`, their `factoryLogsPerBlock` entries are
deleted, and a `finalize` event follows the `block` event; below the
threshold, `finalizedBlock` and `finalizedChildAddresses` are untouched
and only the `block` event is emitted. -/
theorem finalization_behavior (cfg : RtConfig) (st : RtState) (inp : BlockInput)
    (hchain : chainInvB st = true)
    (hn : inp.block.number = (getLatestUnfinalizedBlock st).number + 1)
    (hp : inp.block.parentHash = (getLatestUnfinalizedBlock st).hash) :
    (st.finalizedBlock.number + 2 * cfg.finalityBlockCount ≤ inp.block.number →
      ∃ pending,
        (st.unfinalizedBlocks ++ [syncBlockToLightBlock inp.block]).find?
            (fun lb => decide (lb.number = inp.block.number - cfg.finalityBlockCount))
          = some pending ∧
        pending.number = inp.block.number - cfg.finalityBlockCount ∧
        (handleBlockFn cfg st inp).1.finalizedBlock = pending ∧
        (handleBlockFn cfg st inp).1.unfinalizedBlocks =
          (st.unfinalizedBlocks ++ [syncBlockToLightBlock inp.block]).filter
            (fun lb => decide (pending.number < lb.number)) ∧
        pending ∉ (handleBlockFn cfg st inp).1.unfinalizedBlocks ∧
        (∀ f ∈ cfg.factories, ∀ a : String,
          a ∈ (handleBlockFn cfg st inp).1.finalizedChildAddresses f ↔
            (a ∈ st.finalizedChildAddresses f ∨
              ∃ blk ∈ (st.unfinalizedBlocks ++ [syncBlockToLightBlock inp.block]).filter
                  (fun lb => decide (lb.number ≤ pending.number)),
                a ∈ childAddresses f (st.factoryLogsPerBlock blk.hash))) ∧
        (∀ blk ∈ (st.unfinalizedBlocks ++ [syncBlockToLightBlock inp.block]).filter
            (fun lb => decide (lb.number ≤ pending.number)),
          (handleBlockFn cfg st inp).1.factoryLogsPerBlock blk.hash = []) ∧
        (∃ p, (handleBlockFn cfg st inp).2.1 = [REvent.blockEv p, REvent.finalizeEv pending])) ∧
    (inp.block.number < st.finalizedBlock.number + 2 * cfg.finalityBlockCount →
      (handleBlockFn cfg st inp).1.finalizedBlock = st.finalizedBlock ∧
      (handleBlockFn cfg st inp).1.finalizedChildAddresses = st.finalizedChildAddresses ∧
      ∃ p, (handleBlockFn cfg st inp).2.1 = [REvent.blockEv p]) := by
  have hunf1 : chainedB st.finalizedBlock
      (st.unfinalizedBlocks ++ [syncBlockToLightBlock inp.block]) = true := by
    refine chainedB_concat _ _ _ hchain ?_ ?_
    · simpa [syncBlockToLightBlock, getLatestUnfinalizedBlock] using hp
    · simpa [syncBlockToLightBlock, getLatestUnfinalizedBlock] using hn
  constructor
  · intro hge
    have hge1 : st.finalizedBlock.number + 1 ≤ inp.block.number := by
      have := chainedB_latest_ge st.finalizedBlock st.unfinalizedBlocks hchain
      simp only [getLatestUnfinalizedBlock] at hn
      omega
    have hex : ∃ x ∈ st.unfinalizedBlocks ++ [syncBlockToLightBlock inp.block],
        x.number = inp.block.number - cfg.finalityBlockCount := by
      refine chainedB_exists_number _ _ _ hunf1 (by omega) ?_
      rw [latestOf_concat]
      simp only [syncBlockToLightBlock]
      omega
    have hfind : ((st.unfinalizedBlocks ++ [syncBlockToLightBlock inp.block]).find?
        (fun lb => decide (lb.number = inp.block.number - cfg.finalityBlockCount))).isSome := by
      rw [List.find?_isSome]
      obtain ⟨x, hx, hxe⟩ := hex
      exact ⟨x, hx, by simpa using hxe⟩
    obtain ⟨pending, hfind2⟩ := Option.isSome_iff_exists.mp hfind
    have hpnum : pending.number = inp.block.number - cfg.finalityBlockCount := by
      have := List.find?_some hfind2
      simpa using this
    refine ⟨pending, hfind2, hpnum, ?_, ?_, ?_, ?_, ?_, ?_⟩
    · simp only [handleBlockFn]
      rw [if_pos hge, hfind2]
    · simp only [handleBlockFn]
      rw [if_pos hge, hfind2]
    · simp only [handleBlockFn]
      rw [if_pos hge, hfind2]
      simp only [List.mem_filter, decide_eq_true_eq, not_and]
      intro hmem
      omega
    · intro f hf a
      simp only [handleBlockFn]
      rw [if_pos hge, hfind2]
      simp only [if_pos hf, List.mem_append, List.mem_flatMap]
    · intro blk hblk
      simp only [handleBlockFn]
      rw [if_pos hge, hfind2]
      simp only [deleteHashes]
      rw [if_pos]
      exact List.any_eq_true.mpr ⟨blk, hblk, by simp⟩
    · simp only [handleBlockFn]
      rw [if_pos hge, hfind2]
      exact ⟨_, rfl⟩
  · intro hlt
    have hcond : ¬(st.finalizedBlock.number + 2 * cfg.finalityBlockCount ≤ inp.block.number) := by
      omega
    refine ⟨?_, ?_, ?_⟩
    · simp only [handleBlockFn]
      rw [if_neg hcond]
    · simp only [handleBlockFn]
      rw [if_neg hcond]
    · simp only [handleBlockFn]
      rw [if_neg hcond]
      exact ⟨_, rfl⟩

/-- C3 witness: with `finalizedBlock` at 100, `finalityBlockCount = 2` and
chain 101-103, ingesting 104 finalizes block 102. -/
theorem finalization_behavior_witness :
    chainInvB c3st = true ∧
    ∃ pending,
      (c3st.unfinalizedBlocks ++ [syncBlockToLightBlock c3inp.block]).find?
          (fun lb => decide (lb.number = c3inp.block.number - cfg0.finalityBlockCount))
        = some pending ∧
      (handleBlockFn cfg0 c3st c3inp).1.finalizedBlock = pending ∧
      pending.number = c3inp.block.number - cfg0.finalityBlockCount := by
  refine ⟨by decide, ?_⟩
  obtain ⟨p, h1, h2, h3, -⟩ :=
    (finalization_behavior cfg0 c3st c3inp (by decide) (by decide) (by decide)).1 (by decide)
  exact ⟨p, h1, h3, h2⟩

/-- C4: `handleReorg` either emits exactly one `reorg` event carrying the
surviving common ancestor and the reorged blocks, or -- when the walk-back
exhausts `unfinalizedBlocks` without matching the remote `parentHash` --
fails with the unrecoverable-reorg error, emits no event, and leaves the
list exhausted. -/
theorem handleReorg_event_behavior (cfg : RtConfig) (rp : String → String) (st : RtState)
    (block : SyncBlock) :
    (∃ ancestor reorged,
        (handleReorg cfg rp st block).2.1 = [REvent.reorgEv ancestor reorged] ∧
        (handleReorg cfg rp st block).2.2 = none) ∨
    ((handleReorg cfg rp st block).2.1 = [] ∧
      (handleReorg cfg rp st block).2.2 = some reorgErrMsg ∧
      (handleReorg cfg rp st block).1.unfinalizedBlocks = []) := by
  rcases hw : walkBack st.finalizedBlock rp
    (st.unfinalizedBlocks.filter (fun lb => decide (lb.number < block.number)))
    (st.unfinalizedBlocks.filter (fun lb => decide (block.number ≤ lb.number)))
    block.parentHash with ⟨kept, reorged, oa⟩
  cases oa with
  | none =>
      right
      have hkept : kept = [] := walkBack_none_nil _ _ _ _ _ _ _ hw
      simp only [handleReorg]
      rw [hw]
      exact ⟨rfl, rfl, hkept⟩
  | some ancestor =>
      left
      simp only [handleReorg]
      rw [hw]
      exact ⟨ancestor, reorged, rfl, rfl⟩

/-- C10: the `block` event's transactions are exactly the input
transactions whose hash is referenced by a matched log or matched trace;
a transaction filter that matched some transaction still contributes to
the event's matched filter set even when none of its transactions
survive. -/
theorem block_event_transactions (cfg : RtConfig) (st : RtState) (inp : BlockInput) :
    ∃ p, (handleBlockFn cfg st inp).2.1.head? = some (REvent.blockEv p) ∧
      (∀ t, t ∈ p.transactions ↔
        (t ∈ inp.transactions ∧
          ((∃ log ∈ matchLogs cfg st.finalizedChildAddresses
              (addChildren cfg.factories st.unfinalizedChildAddresses inp.factoryLogs)
              inp.block inp.logs, log.transactionHash = t.hash) ∨
            (∃ tr ∈ matchTraces cfg inp.block inp.traces, tr.transactionHash = t.hash)))) ∧
      (∀ f ∈ cfg.transactionFilters,
        (∃ t ∈ inp.transactions, isTransactionFilterMatched f inp.block.number t = true) →
          Filter.transaction f ∈ p.filters) := by
  refine
    ⟨{ filters := matchedFiltersOf cfg st.finalizedChildAddresses
          (addChildren cfg.factories st.unfinalizedChildAddresses inp.factoryLogs) inp.block
          inp.logs inp.traces inp.transactions
       block := { inp.block with transactions := [] }
       logs := matchLogs cfg st.finalizedChildAddresses
          (addChildren cfg.factories st.unfinalizedChildAddresses inp.factoryLogs) inp.block
          inp.logs
       factoryLogs := inp.factoryLogs
       traces := matchTraces cfg inp.block inp.traces
       transactions := inp.transactions.filter (fun t =>
          (requiredTxHashes
            (matchLogs cfg st.finalizedChildAddresses
              (addChildren cfg.factories st.unfinalizedChildAddresses inp.factoryLogs) inp.block
              inp.logs)
            (matchTraces cfg inp.block inp.traces)).contains t.hash)
       transactionReceipts := inp.transactionReceipts.filter (fun r =>
          (requiredTxHashes
            (matchLogs cfg st.finalizedChildAddresses
              (addChildren cfg.factories st.unfinalizedChildAddresses inp.factoryLogs) inp.block
              inp.logs)
            (matchTraces cfg inp.block inp.traces)).contains r.transactionHash) },
      ?_, ?_, ?_⟩
  · simp only [handleBlockFn]
    split
    · split <;> rfl
    · rfl
  · intro t
    simp only [List.mem_filter, List.elem_iff, requiredTxHashes, List.mem_append,
      List.mem_map]
  · intro f hf ⟨t, ht, htm⟩
    have hfm : f ∈ cfg.transactionFilters.filter
        (fun f => inp.transactions.any (fun t => isTransactionFilterMatched f inp.block.number t)) :=
      List.mem_filter.mpr ⟨hf, List.any_eq_true.mpr ⟨t, ht, htm⟩⟩
    exact List.mem_append.mpr (Or.inl (List.mem_append.mpr (Or.inr
      (List.mem_map.mpr ⟨f, hfm, rfl⟩))))

theorem childInv_append_case (cfg : RtConfig) (st : RtState) (inp : BlockInput)
    (hinv : childInv cfg st)
    (hcache : ∀ f ∈ cfg.factories, ∀ a : String,
      a ∈ childAddresses f (st.factoryLogsPerBlock inp.block.hash) ↔
        a ∈ childAddresses f inp.factoryLogs) :
    childInv cfg
      { st with
          unfinalizedBlocks := st.unfinalizedBlocks ++ [syncBlockToLightBlock inp.block]
          unfinalizedChildAddresses :=
            addChildren cfg.factories st.unfinalizedChildAddresses inp.factoryLogs } := by
  intro f hf a
  show a ∈ addChildren cfg.factories st.unfinalizedChildAddresses inp.factoryLogs f ↔ _
  simp only [addChildren]
  rw [if_pos hf]
  constructor
  · intro h
    rcases List.mem_append.mp h with ha | hb
    · obtain ⟨blk, hblk, hab⟩ := (hinv f hf a).mp ha
      exact ⟨blk, List.mem_append_left _ hblk, hab⟩
    · refine ⟨syncBlockToLightBlock inp.block,
        List.mem_append_right _ (List.mem_singleton_self _), ?_⟩
      exact (hcache f hf a).mpr hb
  · rintro ⟨blk, hblk, hab⟩
    rcases List.mem_append.mp hblk with hl | hr
    · exact List.mem_append_left _ ((hinv f hf a).mpr ⟨blk, hl, hab⟩)
    · obtain rfl : blk = syncBlockToLightBlock inp.block := List.mem_singleton.mp hr
      exact List.mem_append_right _ ((hcache f hf a).mp hab)

theorem childInv_recompute (cfg : RtConfig) (flpb : String → List SyncLog)
    (keep dele : List LightBlock)
    (hdisj : ∀ blk ∈ keep, ∀ x ∈ dele, x.hash ≠ blk.hash)
    (st' : RtState)
    (hu : st'.unfinalizedBlocks = keep)
    (huca : st'.unfinalizedChildAddresses = recomputeChildren cfg.factories flpb keep)
    (hm : st'.factoryLogsPerBlock = deleteHashes flpb dele) :
    childInv cfg st' := by
  intro f hf a
  rw [hu, huca, hm]
  simp only [recomputeChildren]
  rw [if_pos hf]
  rw [List.mem_flatMap]
  refine exists_congr fun blk => and_congr_right fun hblk => ?_
  have hdel : deleteHashes flpb dele blk.hash = flpb blk.hash := by
    simp only [deleteHashes]
    rw [if_neg]
    simp only [List.any_eq_true, decide_eq_true_eq, not_exists]
    intro x
    rintro ⟨hx, he⟩
    exact hdisj blk hblk x hx he
  rw [hdel]

/-- C2: the factory-tracker invariant -- for every registered factory,
`unfinalizedChildAddresses[F]` equals the union over the current
`unfinalizedBlocks` of the children decoded from `factoryLogsPerBlock` --
is preserved by the happy-path ingest (with or without finalization
promotion) and by a completed reorg rewind.  The ingest case assumes the
cached entry for the incoming hash decodes to the same children as the
passed `factoryLogs` (what `fetchBlockEventData` establishes) and that
block hashes are distinct. -/
theorem child_addresses_invariant (cfg : RtConfig) (st : RtState) :
    (∀ inp : BlockInput,
      childInv cfg st →
      (∀ f ∈ cfg.factories, ∀ a : String,
        a ∈ childAddresses f (st.factoryLogsPerBlock inp.block.hash) ↔
          a ∈ childAddresses f inp.factoryLogs) →
      ((st.unfinalizedBlocks.map (fun lb => lb.hash)) ++ [inp.block.hash]).Nodup →
      childInv cfg (handleBlockFn cfg st inp).1) ∧
    (∀ (rp : String → String) (block : SyncBlock),
      childInv cfg st →
      (st.unfinalizedBlocks.map (fun lb => lb.hash)).Nodup →
      (handleReorg cfg rp st block).2.2 = none →
      childInv cfg (handleReorg cfg rp st block).1) := by
  constructor
  · intro inp hinv hcache hnodup
    have hnodup1 : ((st.unfinalizedBlocks ++ [syncBlockToLightBlock inp.block]).map
        (fun lb => lb.hash)).Nodup := by
      simpa [syncBlockToLightBlock] using hnodup
    simp only [handleBlockFn]
    split
    · split
      · exact childInv_append_case cfg st inp hinv hcache
      · rename_i pending hfind
        refine childInv_recompute cfg st.factoryLogsPerBlock
          ((st.unfinalizedBlocks ++ [syncBlockToLightBlock inp.block]).filter
            (fun lb => decide (pending.number < lb.number)))
          ((st.unfinalizedBlocks ++ [syncBlockToLightBlock inp.block]).filter
            (fun lb => decide (lb.number ≤ pending.number)))
          ?_ _ rfl rfl rfl
        intro blk hblk x hx heq
        have hxblk : x = blk :=
          List.inj_on_of_nodup_map hnodup1 (List.mem_of_mem_filter hx)
            (List.mem_of_mem_filter hblk) heq
        subst hxblk
        have p1 := List.of_mem_filter hblk
        have p2 := List.of_mem_filter hx
        simp only [decide_eq_true_eq] at p1 p2
        omega
    · exact childInv_append_case cfg st inp hinv hcache
  · intro rp block hinv hnodup herr
    rcases hw : walkBack st.finalizedBlock rp
      (st.unfinalizedBlocks.filter (fun lb => decide (lb.number < block.number)))
      (st.unfinalizedBlocks.filter (fun lb => decide (block.number ≤ lb.number)))
      block.parentHash with ⟨kept, reorged, oa⟩
    obtain ⟨m, o, hmle, hweq⟩ := walkBack_split st.finalizedBlock rp
      (st.unfinalizedBlocks.filter (fun lb => decide (lb.number < block.number)))
      (st.unfinalizedBlocks.filter (fun lb => decide (block.number ≤ lb.number)))
      block.parentHash
    rw [hw] at hweq
    simp only [Prod.mk.injEq] at hweq
    obtain ⟨hk, hr, -⟩ := hweq
    simp only [handleReorg] at herr ⊢
    rw [hw] at herr ⊢
    cases oa with
    | none => simp at herr
    | some ancestor =>
        refine childInv_recompute cfg st.factoryLogsPerBlock kept reorged ?_ _ rfl rfl rfl
        intro blk hblk x hx heq
        have hblk0 : blk ∈ st.unfinalizedBlocks.filter
            (fun lb => decide (lb.number < block.number)) := by
          rw [hk] at hblk
          exact List.take_subset m _ hblk
        rw [hr] at hx
        rcases List.mem_append.mp hx with hx0 | hxd
        · have hxblk : x = blk :=
            List.inj_on_of_nodup_map hnodup (List.mem_of_mem_filter hx0)
              (List.mem_of_mem_filter hblk0) heq
          subst hxblk
          have p1 := List.of_mem_filter hblk0
          have p2 := List.of_mem_filter hx0
          simp only [decide_eq_true_eq] at p1 p2
          omega
        · have hxd2 : x ∈ (st.unfinalizedBlocks.filter
              (fun lb => decide (lb.number < block.number))).drop m :=
            List.mem_reverse.mp hxd
          have hnodup0 : ((st.unfinalizedBlocks.filter
              (fun lb => decide (lb.number < block.number))).map (fun lb => lb.hash)).Nodup :=
            List.Nodup.sublist
              (List.Sublist.map (fun lb : LightBlock => lb.hash)
                (List.filter_sublist st.unfinalizedBlocks)) hnodup
          have hdisj2 := by
            have h2 := hnodup0
            rw [← List.take_append_drop m (st.unfinalizedBlocks.filter
              (fun lb => decide (lb.number < block.number))), List.map_append] at h2
            exact (List.nodup_append.mp h2).2.2
          have hmem1 : blk.hash ∈ ((st.unfinalizedBlocks.filter
              (fun lb => decide (lb.number < block.number))).take m).map (fun lb => lb.hash) := by
            rw [hk] at hblk
            exact List.mem_map.mpr ⟨blk, hblk, rfl⟩
          have hmem2 : blk.hash ∈ ((st.unfinalizedBlocks.filter
              (fun lb => decide (lb.number < block.number))).drop m).map (fun lb => lb.hash) := by
            rw [← heq]
            exact List.mem_map.mpr ⟨x, hxd2, rfl⟩
          exact absurd hmem2 (hdisj2 hmem1)

/-- C2 witness: the invariant holds after an ingest and after a completed
one-block rewind. -/
theorem child_addresses_invariant_witness :
    childInv cfg0 (handleBlockFn cfg0 c8base inp101).1 ∧
    childInv cfg0 (handleReorg cfg0 (fun _ => "") c3st c2blk).1 := by
  constructor
  · refine (child_addresses_invariant cfg0 c8base).1 inp101 ?_ ?_ (by decide)
    · intro f hf
      simp [cfg0] at hf
    · intro f hf
      simp [cfg0] at hf
  · refine (child_addresses_invariant cfg0 c3st).2 (fun _ => "") c2blk ?_ (by decide) ?_
    · intro f hf
      simp [cfg0] at hf
    · simp only [handleReorg]
      rw [walkBack]
      rfl

/-- C10 witness: a transaction matched only by a transaction filter is
absent from the emitted transactions while its filter is in the matched
set. -/
theorem block_event_transactions_witness :
    ∃ p, (handleBlockFn c10cfg c8base c10inp).2.1.head? = some (REvent.blockEv p) ∧
      c10tx ∉ p.transactions ∧ Filter.transaction c10tf ∈ p.filters := by
  obtain ⟨p, h1, h2, h3⟩ := block_event_transactions c10cfg c8base c10inp
  refine ⟨p, h1, ?_, ?_⟩
  · intro hmem
    exact absurd ((h2 c10tx).mp hmem) (by decide)
  · exact h3 c10tf (by decide) ⟨c10tx, by decide, by decide⟩

theorem eventsForSource_sourceIndex (ctx : BuildCtx) (i : Nat) (src : Filter) :
    ∀ e ∈ eventsForSource ctx i src, e.sourceIndex = i := by
  intro e he
  cases src with
  | log f =>
      simp only [eventsForSource] at he
      split at he
      · simp at he
      · obtain ⟨x, hx, rfl⟩ := List.mem_map.mp he
        rfl
  | trace f =>
      simp only [eventsForSource] at he
      split at he
      · simp at he
      · obtain ⟨x, hx, rfl⟩ := List.mem_map.mp he
        rfl
  | transaction f =>
      simp only [eventsForSource] at he
      split at he
      · simp at he
      · obtain ⟨x, hx, rfl⟩ := List.mem_map.mp he
        rfl
  | transfer f =>
      simp only [eventsForSource] at he
      split at he
      · simp at he
      · obtain ⟨x, hx, rfl⟩ := List.mem_map.mp he
        rfl
  | block f =>
      simp only [eventsForSource] at he
      split at he
      · simp at he
      · split at he
        · obtain rfl := List.mem_singleton.mp he
          rfl
        · simp at he

theorem mem_buildEventsAux (ctx : BuildCtx) :
    ∀ (srcs : List Filter) (i : Nat) (e : RawEvent), e ∈ buildEventsAux ctx i srcs →
      ∃ j src, srcs.get? j = some src ∧ e.sourceIndex = i + j ∧
        e ∈ eventsForSource ctx (i + j) src := by
  intro srcs
  induction srcs with
  | nil =>
      intro i e he
      simp [buildEventsAux] at he
  | cons src rest ih =>
      intro i e he
      rcases List.mem_append.mp he with hl | hr
      · refine ⟨0, src, rfl, ?_, ?_⟩
        · simpa using eventsForSource_sourceIndex ctx i src e hl
        · simpa using hl
      · obtain ⟨j, src', hget, hidx, hmem⟩ := ih (i + 1) e hr
        have harith : i + 1 + j = i + (j + 1) := by omega
        rw [harith] at hidx hmem
        exact ⟨j + 1, src', hget, hidx, hmem⟩

/-- C9: `buildEvents` returns its events sorted ascending by checkpoint,
and every event produced for a matched block filter carries a checkpoint
encoded with the sentinel maximum `transactionIndex` and zero
`eventIndex`. -/
theorem buildEvents_sorted_block_checkpoint (sources : List Filter) (ctx : BuildCtx) :
    (buildEvents sources ctx).Pairwise (fun a b => a.checkpoint ≤ b.checkpoint) ∧
    (∀ e ∈ buildEvents sources ctx, ∀ bf : BlockFilter,
      sources.get? e.sourceIndex = some (Filter.block bf) →
        e.checkpoint = encodeCheckpoint
          { blockTimestamp := ctx.block.timestamp, chainId := bf.chainId,
            blockNumber := ctx.block.number,
            transactionIndex := maxCheckpoint.transactionIndex,
            eventType := EVENT_TYPES.blocks,
            eventIndex := zeroCheckpoint.eventIndex }) := by
  constructor
  · have hs := @List.sorted_mergeSort RawEvent
      (fun a b : RawEvent => decide (a.checkpoint ≤ b.checkpoint))
      (fun a b c hab hbc => by
        simp only [decide_eq_true_eq] at hab hbc ⊢
        exact le_trans hab hbc)
      (fun a b => by
        simpa [Bool.or_eq_true, decide_eq_true_eq] using le_total a.checkpoint b.checkpoint)
      (buildEventsAux ctx 0 sources)
    exact hs.imp fun h => decide_eq_true_eq.mp h
  · intro e he bf hbf
    have he2 : e ∈ buildEventsAux ctx 0 sources := List.mem_mergeSort.mp he
    obtain ⟨j, src, hget, hidx, hmem⟩ := mem_buildEventsAux ctx sources 0 e he2
    rw [hidx] at hbf
    simp only [Nat.zero_add] at hbf hmem
    rw [hbf] at hget
    obtain rfl : Filter.block bf = src := (Option.some.injEq _ _).mp hget
    simp only [eventsForSource] at hmem
    split at hmem
    · simp at hmem
    · split at hmem
      · obtain rfl := List.mem_singleton.mp hmem
        rfl
      · simp at hmem

/-- C9 witness: a single matched block filter yields the block event with
the sentinel checkpoint inside the sorted output. -/
theorem buildEvents_sorted_block_checkpoint_witness :
    [Filter.block c9bf].get? c9event.sourceIndex = some (Filter.block c9bf) ∧
    c9event ∈ buildEvents [Filter.block c9bf] c9ctx ∧
    c9event.checkpoint = encodeCheckpoint
      { blockTimestamp := c9ctx.block.timestamp, chainId := c9bf.chainId,
        blockNumber := c9ctx.block.number,
        transactionIndex := maxCheckpoint.transactionIndex,
        eventType := EVENT_TYPES.blocks,
        eventIndex := zeroCheckpoint.eventIndex } := by
  have hmem : c9event ∈ buildEvents [Filter.block c9bf] c9ctx :=
    List.mem_mergeSort.mpr (by decide)
  exact ⟨by decide, hmem,
    (buildEvents_sorted_block_checkpoint [Filter.block c9bf] c9ctx).2 c9event hmem c9bf
      (by decide)⟩

end Ponder
